import Mathlib

/-
Verification of the scraping repository against its specification.

The development shallowly embeds the three pipelines of the repository:
* `extract_videos.py`   — video-segment extraction from parliament XML files,
* `parliament/download.py` — the XML table-row downloader,
* `podcast/download_ivoox_podcast.py` — the podcast feed processor.

External collaborators (the HTTP library, BeautifulSoup/feedparser parsing,
the filesystem) are abstracted as explicit oracle functions passed in as
parameters; the repository's own control flow, checks and data construction
are translated statement by statement.
-/

set_option maxRecDepth 4000

/-! ## Python string helpers

The Python string operations the scripts use are implemented over the
character list of the string (with the list length as structural fuel where
needed), so that every definition evaluates on concrete inputs. -/

/-- Python substring test: `needle in hay` on strings. -/
def strContains (hay needle : String) : Bool :=
  decide (List.IsInfix needle.toList hay.toList)

/-- Python truthiness of an optional string: `None` and the empty string are
falsy, every other string is truthy. -/
def pyTruthy (s : Option String) : Bool :=
  match s with
  | none => false
  | some t => !(t == "")

/-- Worker for `pySplit`: scan the characters, cutting at each
occurrence of the (nonempty) separator, left to right without overlap.  The
fuel is the length of the scanned list, so the guard arm is unreachable. -/
def pySplitGo (sep : List Char) : Nat → List Char → List Char → List (List Char)
  | _, [], acc => [acc.reverse]
  | 0, s, acc => [acc.reverse ++ s]
  | Nat.succ n, c :: cs, acc =>
    if sep.isPrefixOf (c :: cs) then
      acc.reverse :: pySplitGo sep n (List.drop (sep.length - 1) cs) []
    else
      pySplitGo sep n cs (c :: acc)

/-- Python `s.split(sep)` for a nonempty separator. -/
def pySplit (s sep : String) : List String :=
  (pySplitGo sep.toList s.toList.length s.toList []).map String.mk

/-- Python `sep.join(parts)`. -/
def joinSep (sep : String) : List String → String
  | [] => ""
  | [s] => s
  | s :: rest => s ++ sep ++ joinSep sep rest

/-- Python `s.startswith(pre)`. -/
def pyStartsWith (s pre : String) : Bool :=
  pre.toList.isPrefixOf s.toList

/-- A Python whitespace character (the set `str.strip()` removes). -/
def pyIsSpace (c : Char) : Bool :=
  (c == ' ') || (c == '\t') || (c == '\n') || (c == '\r') || (c == '\x0B') || (c == '\x0C')

/-- Python `s.strip()`: drop whitespace from both ends. -/
def pyStrip (s : String) : String :=
  String.mk (((s.toList.dropWhile pyIsSpace).reverse.dropWhile pyIsSpace).reverse)

/-- Python `int(s)` restricted to the plain digit strings the feeds carry:
`some` of the value on a nonempty all-digit string, `none` (a `ValueError`)
otherwise.  The sign and surrounding-whitespace forms `int` also accepts do
not occur in path segments and are not modelled. -/
def pyInt? (s : String) : Option Nat :=
  if s.toList.isEmpty then none
  else if s.toList.all Char.isDigit then
    some (s.toList.foldl (fun n c => 10 * n + (c.toNat - 48)) 0)
  else none

/-! ## `urllib.parse` model (external library used by `extract_videos.py`)

`urlparse` splits the fragment off at the first `#` and then takes the query
to be everything after the first `?` of the remainder.  `parse_qs` (with its
default arguments) splits the query on `&`, keeps only fields that contain a
`=` with a nonempty value, and collects the values per key in order; the
percent/plus decoding of the library is omitted here (it is the identity on
the plain alphanumeric parameter names and values these URLs use). -/

/-- Part of the URL before the first `#` (the fragment is split off first). -/
def stripFragment (url : String) : String :=
  (pySplit url "#").headD url

/-- The query component of a URL: everything after the first `?` of the
fragment-stripped URL. -/
def extractQuery (url : String) : String :=
  match pySplit (stripFragment url) "?" with
  | [] => ""
  | [_] => ""
  | _ :: rest => joinSep "?" rest

/-- One `key=value` field of a query string, as kept by `parse_qs` with
default arguments: empty fields, fields without `=` and fields with an empty
value are dropped.  `split('=', 1)` splits at the first `=` only. -/
def parseQsPair (field : String) : Option (String × String) :=
  if field = "" then none
  else
    match pySplit field "=" with
    | [] => none
    | [_] => none
    | k :: rest =>
      let v := joinSep "=" rest
      if v = "" then none else some (k, v)

/-- `parse_qs` of a query string, flattened to the ordered list of kept
key/value pairs. -/
def parseQs (q : String) : List (String × String) :=
  (pySplit q "&").filterMap parseQsPair

/-- `params.get(key, [None])[0]`: the first value recorded for `key`. -/
def getParam (params : List (String × String)) (key : String) : Option String :=
  (params.find? (fun p => p.1 == key)).map (fun p => p.2)

/-! ## `extract_videos.py`: `XMLVideoExtractor._parse_video_url` -/

/-- The structured record built by `_parse_video_url`. -/
structure VideoInfo where
  url : String
  stream_legealdia : Option String
  stream_organoa : Option String
  stream_data : Option String
  stream_name : Option String
  start_time : Option String
  end_time : Option String
  deriving DecidableEq, Repr

/-- `XMLVideoExtractor._parse_video_url`: rejects the URL unless it contains
the substring `streamlegealdia` or `streamdbstart`; otherwise parses the
query parameters and keeps the record only when the start or end timestamp
is truthy. -/
def parse_video_url (url : String) : Option VideoInfo :=
  if !strContains url "streamlegealdia" && !strContains url "streamdbstart" then
    none
  else
    let params := parseQs (extractQuery url)
    let video_info : VideoInfo :=
      { url := url
        stream_legealdia := getParam params "streamlegealdia"
        stream_organoa := getParam params "streamorganoa"
        stream_data := getParam params "streamdata"
        stream_name := getParam params "streamname"
        start_time := getParam params "streamdbstart"
        end_time := getParam params "streamdbend" }
    if pyTruthy video_info.start_time || pyTruthy video_info.end_time then
      some video_info
    else
      none

/-! ## `extract_videos.py`: `XMLVideoExtractor._get_description`

XML elements are modelled as a tree; `ElementTree` has no parent pointers,
and `element.find("..")` is documented to return `None` whenever the path
attempts to reach an ancestor of the start element. -/

/-- An XML element: tag, direct text content, children in document order. -/
inductive XmlElem where
  | mk (tag : String) (text : Option String) (children : List XmlElem)

/-- The tag of an element. -/
def XmlElem.tag : XmlElem → String
  | .mk t _ _ => t

/-- The direct text of an element. -/
def XmlElem.text : XmlElem → Option String
  | .mk _ tx _ => tx

/-- The children of an element. -/
def XmlElem.children : XmlElem → List XmlElem
  | .mk _ _ ch => ch

/-- `element.find("..")` of `xml.etree.ElementTree`: the library cannot
navigate to ancestors of the element `find` is called on and returns `None`. -/
def et_find_dotdot (_e : XmlElem) : Option XmlElem := none

/-- First element with the given tag among the subtrees rooted at the given
list, in document order — the search order of `find(".//tag")` relative to a
parent whose children the list is. -/
def findDescList (tag : String) : List XmlElem → Option XmlElem
  | [] => none
  | XmlElem.mk t tx ch :: cs =>
    if t = tag then some (XmlElem.mk t tx ch)
    else
      match findDescList tag ch with
      | some d => some d
      | none => findDescList tag cs

/-- The loop body of `_get_description`: move to `parent.find("..")`, break
when it is `None`, else look for the description node below the new parent
and return its stripped text when truthy; otherwise keep climbing. -/
def get_description_go : Nat → XmlElem → Option String
  | 0, _ => none
  | Nat.succ n, parent =>
    match et_find_dotdot parent with
    | none => none
    | some p =>
      match findDescList "sesiones_pleno_asunto_indice_descripcion" p.children with
      | some d =>
        match d.text with
        | some t => if t = "" then get_description_go n p else some (pyStrip t)
        | none => get_description_go n p
      | none => get_description_go n p

/-- `XMLVideoExtractor._get_description`: up to 5 iterations of the climb. -/
def get_description (element : XmlElem) : Option String :=
  get_description_go 5 element

/-- Modelled from the spec: the intended description lookup — walk the chain
of ancestors of the matched element (nearest first, supplied explicitly since
the tree carries no parent pointers), check up to 5 levels, and in each
ancestor search the descendants for the description node, returning the first
truthy text, stripped. -/
def description_spec_go : List XmlElem → Option String
  | [] => none
  | p :: rest =>
    match findDescList "sesiones_pleno_asunto_indice_descripcion" p.children with
    | some d =>
      match d.text with
      | some t => if t = "" then description_spec_go rest else some (pyStrip t)
      | none => description_spec_go rest
    | none => description_spec_go rest

/-- Modelled from the spec: description search over the 5 nearest ancestors. -/
def description_spec (ancestors : List XmlElem) : Option String :=
  description_spec_go (ancestors.take 5)

/-! ## `parliament/download.py`

A table row is the list of its `<td>` cells; a cell carries its stripped text
and the `href` of the first hyperlink inside it, if any.  The HTTP library is
an oracle `fetch`; a fetched URL is logged so that "zero download requests"
is expressible. -/

/-- One `<td>` cell: `get_text(strip=True)` and the first `<a href=...>`. -/
structure Cell where
  text : String
  a_href : Option String
  deriving DecidableEq, Repr

/-- One `<tr>` row: its list of `<td>` cells. -/
abbrev Row := List Cell

/-- One persisted XML record (`xml_info`). -/
structure XmlInfo where
  name : String
  xml_filepath : String
  xml_url : String
  deriving DecidableEq, Repr

/-- Outcome of `requests.get` on a payload URL: content, or a transport
response that `raise_for_status` turns into an exception. -/
inductive FetchResult where
  | ok (content : List Nat)
  | httpError
  deriving DecidableEq, Repr

/-- The two kinds of exception escaping `download_xml`: the `ValueError`s it
raises itself (caught per row by `main`) and the `HTTPError` of
`raise_for_status` (not caught). -/
inductive RowError where
  | valueError (msg : String)
  | httpError
  deriving DecidableEq, Repr

/-- `download_xml`: reject rows with fewer than two cells, rows whose
first-cell name is already known, and rows whose second cell has no
hyperlink; otherwise resolve the link, derive the local filename from the
last `=`-separated piece of the URL, fetch, and build the record.  The first
component of the result lists the payload URLs requested. -/
def download_xml (fetch : String → FetchResult) (row : Row)
    (base_url output_dir : String) (xml_info_list : List XmlInfo) :
    List String × Except RowError XmlInfo :=
  match row with
  | [] => ([], .error (.valueError "Skipping Malformed rows"))
  | [_] => ([], .error (.valueError "Skipping Malformed rows"))
  | c0 :: c1 :: _ =>
    let name := c0.text
    if xml_info_list.any (fun xml_info => xml_info.name == name) then
      ([], .error (.valueError ("File already downloaded name: " ++ name)))
    else
      match c1.a_href with
      | none => ([], .error (.valueError "a_tag not found"))
      | some href0 =>
        let href := if pyStartsWith href0 "http" then href0 else base_url ++ href0
        let filepath := output_dir ++ "/" ++ (pySplit href "=").getLastD ""
        match fetch href with
        | .httpError => ([href], .error .httpError)
        | .ok _content =>
          ([href], .ok { name := name, xml_filepath := filepath, xml_url := href })

/-- The row loop of `main`: each row is passed to `download_xml` with the
group's original `xml_info_list`; a `ValueError` is caught and the loop
continues, a successful record is appended to `new_xml_info_list`, and an
`HTTPError` escapes and aborts the whole batch. -/
def processRows (fetch : String → FetchResult) (base_url output_dir : String)
    (xml_info_list : List XmlInfo) : List Row → List String × Except Unit (List XmlInfo)
  | [] => ([], .ok [])
  | row :: rest =>
    match download_xml fetch row base_url output_dir xml_info_list with
    | (reqs, .ok xml_info) =>
      let next := processRows fetch base_url output_dir xml_info_list rest
      (reqs ++ next.1, next.2.map (fun l => xml_info :: l))
    | (reqs, .error (.valueError _)) =>
      let next := processRows fetch base_url output_dir xml_info_list rest
      (reqs ++ next.1, next.2)
    | (reqs, .error .httpError) => (reqs, .error ())

/-- `f"https://{html_url.split('/')[2]}"`. -/
def base_url_of (html_url : String) : String :=
  "https://" ++ (pySplit html_url "/").getD 2 ""

/-- One group of the metadata store (`xml_metadata`). -/
structure XmlGroup where
  html_url : String
  name : String
  xml_info_list : List XmlInfo
  deriving DecidableEq, Repr

/-- The group loop of `main` in `parliament/download.py`: fetch each group's
index page (`none` models a transport failure, which aborts the run), run the
row loop, and set the group's persisted list to the new records prepended to
the old ones.  The store is written only when every group succeeds, so an
aborted run returns `none` (store not rewritten). -/
def parliamentMain (page : String → Option (List Row)) (fetch : String → FetchResult)
    (xml_output_dir : String) : List XmlGroup → Option (List XmlGroup)
  | [] => some []
  | g :: gs =>
    match page g.html_url with
    | none => none
    | some rows =>
      match (processRows fetch (base_url_of g.html_url)
          (xml_output_dir ++ "/" ++ g.name) g.xml_info_list rows).2 with
      | .error _ => none
      | .ok newList =>
        match parliamentMain page fetch xml_output_dir gs with
        | none => none
        | some gs' => some ({ g with xml_info_list := newList ++ g.xml_info_list } :: gs')

/-- The new records a run computes for one group, when that group's page
fetch and row loop succeed. -/
def groupNewList (page : String → Option (List Row)) (fetch : String → FetchResult)
    (xml_output_dir : String) (g : XmlGroup) : Option (List XmlInfo) :=
  match page g.html_url with
  | none => none
  | some rows =>
    match (processRows fetch (base_url_of g.html_url)
        (xml_output_dir ++ "/" ++ g.name) g.xml_info_list rows).2 with
    | .error _ => none
    | .ok newList => some newList

/-- The first-cell name of a well-formed (two-or-more-cell) row. -/
def rowName? (row : Row) : Option String :=
  match row with
  | c0 :: _ :: _ => some c0.text
  | _ => none

/-- The candidate names carried by the well-formed rows of a page. -/
def pageRowNames (rows : List Row) : List String :=
  rows.filterMap rowName?

/-! ## `podcast/download_ivoox_podcast.py`

The filesystem is a partial map from paths to byte lists, the network an
oracle from URLs to a `NetResult`; requested URLs are logged. -/

/-- One enclosure of a feed entry: its `url` field, possibly absent. -/
structure Enclosure where
  url : Option String
  deriving DecidableEq, Repr

/-- One parsed feed entry, with the fields `process_feed` reads.  The
publish date token stands for the external `published_parsed` time struct;
`time.strftime("%Y-%m-%d", ...)` of the external time library is represented
by the token itself. -/
structure Entry where
  enclosures : List Enclosure
  id : Option String
  published_parsed : Option String
  title : Option String
  itunes_duration : Option String
  itunes_season : Option String
  itunes_episode : Option String
  deriving DecidableEq, Repr

/-- One persisted episode record (`audio`). -/
structure Audio where
  id : Nat
  pub_date : String
  title : Option String
  duration : Option String
  audio_filepath : String
  url : String
  deriving DecidableEq, Repr

/-- One feed descriptor of the store (`feed_info`). -/
structure Feed where
  source : Option String
  name : Option String
  rss_url : Option String
  audio_list : Option (List Audio)
  deriving DecidableEq, Repr

/-- Outcome of `requests.get` on an audio URL: full content, a failure
before any byte is written, or a mid-stream failure that leaves the bytes
written so far on disk. -/
inductive NetResult where
  | ok (content : List Nat)
  | errBefore
  | errDuring (written : List Nat)

/-- `download_file`: skip entirely (returning Python `None`) when the target
path exists; otherwise request the URL, write the bytes, and return `True`
on success or `False` on a caught exception.  Result: the updated
filesystem, the requested URLs, and the Python return value. -/
def download_file (net : String → NetResult) (fs : String → Option (List Nat))
    (url output_path : String) :
    (String → Option (List Nat)) × List String × Option Bool :=
  match fs output_path with
  | some _ => (fs, [], none)
  | none =>
    match net url with
    | .errBefore => (fs, [url], some false)
    | .errDuring w => (fun p => if p = output_path then some w else fs p, [url], some false)
    | .ok content => (fun p => if p = output_path then some content else fs p, [url], some true)

/-- `os.path.split(s)[1]`: the part after the last `/`. -/
def os_path_split_tail (s : String) : String :=
  (pySplit s "/").getLastD ""

/-- The local filename stem: `f"{season}x{episode}{'_'}{id}"` when both
season and episode are present, else `f"{id}"`. -/
def episode_filename (season episode : Option String) (num : Nat) : String :=
  match season, episode with
  | some s, some e => s ++ "x" ++ e ++ "_" ++ toString num
  | _, _ => toString num

/-- What one iteration of the entry loop of `process_feed` did. -/
inductive StepOut where
  | skip
  | crash (msg : String)
  | added (a : Audio)
  | notAdded
  deriving DecidableEq, Repr

/-- One iteration of the entry loop of `process_feed`: skip entries without
a truthy enclosure URL; split the numeric id off the entry identifier
(`None` identifier or a non-numeric tail crashes, uncaught); skip the entry
when the id is already known; otherwise compute the target path and call
`download_file`, building the record only when it returned `True` (a `None`
publish date then crashes inside `strftime`). -/
def processEntry (net : String → NetResult) (base_dir : String)
    (id_list : Option (List Nat)) (fs : String → Option (List Nat)) (e : Entry) :
    (String → Option (List Nat)) × List String × StepOut :=
  match e.enclosures with
  | [] => (fs, [], .skip)
  | enc :: _ =>
    match enc.url with
    | none => (fs, [], .skip)
    | some url =>
      if url = "" then (fs, [], .skip)
      else
        match e.id with
        | none => (fs, [], .crash "TypeError: os.path.split of None")
        | some full_id =>
          match pyInt? (os_path_split_tail full_id) with
          | none => (fs, [], .crash "ValueError: invalid literal for int")
          | some num =>
            if (match id_list with
                | some l => decide (num ∈ l)
                | none => false) then (fs, [], .skip)
            else
              let filename := episode_filename e.itunes_season e.itunes_episode num
              let audio_filepath := base_dir ++ "/" ++ filename ++ ".mp3"
              match download_file net fs url audio_filepath with
              | (fs', reqs, ret) =>
                if ret = some true then
                  match e.published_parsed with
                  | none => (fs', reqs, .crash "TypeError: strftime of None")
                  | some d =>
                    (fs', reqs, .added
                      { id := num
                        pub_date := d
                        title := e.title
                        duration := e.itunes_duration
                        audio_filepath := audio_filepath
                        url := url })
                else (fs', reqs, .notAdded)

/-- The entry loop of `process_feed`: iterate `processEntry`, collecting the
new records in feed order; a crash aborts the feed with the requests issued
so far. -/
def processEntries (net : String → NetResult) (base_dir : String)
    (id_list : Option (List Nat)) :
    (String → Option (List Nat)) → List Entry →
    (String → Option (List Nat)) × List String × Except String (List Audio)
  | fs, [] => (fs, [], .ok [])
  | fs, e :: rest =>
    match processEntry net base_dir id_list fs e with
    | (fs', reqs, .crash m) => (fs', reqs, .error m)
    | (fs', reqs, .skip) =>
      let next := processEntries net base_dir id_list fs' rest
      (next.1, reqs ++ next.2.1, next.2.2)
    | (fs', reqs, .notAdded) =>
      let next := processEntries net base_dir id_list fs' rest
      (next.1, reqs ++ next.2.1, next.2.2)
    | (fs', reqs, .added a) =>
      let next := processEntries net base_dir id_list fs' rest
      (next.1, reqs ++ next.2.1, next.2.2.map (fun l => a :: l))

/-- `process_feed`: build the known id list (`None` when the stored list is
absent or empty), fail on a missing source, name or feed URL, parse the feed
(`none` models a bozo feed, fatal), and run the entry loop under
`{output_dir}/{source}/{name}`. -/
def process_feed (net : String → NetResult) (parseRss : String → Option (List Entry))
    (fs : String → Option (List Nat)) (feed_info : Feed) (output_dir : String) :
    (String → Option (List Nat)) × List String × Except String (List Audio) :=
  let audio_list := feed_info.audio_list
  let id_list : Option (List Nat) :=
    match audio_list with
    | some l => if l.isEmpty then none else some (l.map (fun a => a.id))
    | none => none
  match feed_info.source, feed_info.name, feed_info.rss_url with
  | some source, some nm, some rss_url =>
    match parseRss rss_url with
    | none => (fs, [], .error "ERROR parsing feed")
    | some entries =>
      let base_dir := output_dir ++ "/" ++ source ++ "/" ++ nm
      processEntries net base_dir id_list fs entries
  | _, _, _ => (fs, [], .error "ERROR: Missing required field in feed_info")

/-- The feed loop of `main` in `download_ivoox_podcast.py`: each feed is
processed in turn (an escaping exception aborts the run: `none`, store not
rewritten); on success the feed's persisted list becomes the new records
prepended to the old ones, and the store is written after all feeds. -/
def podcastMain (net : String → NetResult) (parseRss : String → Option (List Entry))
    (output_dir : String) :
    (String → Option (List Nat)) → List Feed →
    Option ((String → Option (List Nat)) × List Feed)
  | fs, [] => some (fs, [])
  | fs, f :: rest =>
    match process_feed net parseRss fs f output_dir with
    | (_, _, .error _) => none
    | (fs', _, .ok newList) =>
      match podcastMain net parseRss output_dir fs' rest with
      | none => none
      | some (fs'', feeds') =>
        some (fs'', { f with audio_list := some (newList ++ f.audio_list.getD []) } :: feeds')

/-- A feed descriptor with a missing required field. -/
def feedMissingRequired (f : Feed) : Prop :=
  f.source = none ∨ f.name = none ∨ f.rss_url = none

/-! ## Concrete example inputs used by the closed theorems below -/

/-- A candidate URL whose query carries only the end timestamp. -/
def c1_url : String := "https://www.legebiltzarra.eus/videos?streamdbend=100"

/-- An element holding a stream URL, as matched by the extractor. -/
def c2_video_elem : XmlElem :=
  .mk "sesiones_pleno_asunto_indice_url"
    (some "https://www.legebiltzarra.eus/videos?streamlegealdia=XII&streamdbstart=10") []

/-- A description node with non-empty text. -/
def c2_desc_elem : XmlElem :=
  .mk "sesiones_pleno_asunto_indice_descripcion" (some "Punto 1") []

/-- The direct parent of the matched element, containing a description. -/
def c2_parent : XmlElem :=
  .mk "sesiones_pleno_asunto_indice" none [c2_desc_elem, c2_video_elem]

/-- A fetch oracle that always succeeds with empty content. -/
def exFetch : String → FetchResult := fun _ => .ok []

/-- A fetch oracle that always fails with a non-success response. -/
def exFetchErr : String → FetchResult := fun _ => .httpError

/-- A well-formed table row carrying the new name `A` and a link. -/
def c3_row : Row :=
  [{ text := "A", a_href := none }, { text := "link", a_href := some "http://h/x?file=1" }]

/-- A group whose record list is empty (trivially duplicate-free). -/
def c3_group : XmlGroup := { html_url := "https://host/index", name := "G", xml_info_list := [] }

/-- An index page carrying the same row twice. -/
def c3_page : String → Option (List Row) := fun _ => some [c3_row, c3_row]

/-- The record built from `c3_row` under output directory `out/G`. -/
def c3_info : XmlInfo := { name := "A", xml_filepath := "out/G/1", xml_url := "http://h/x?file=1" }

/-- The persisted group after the duplicate-row run: the record twice. -/
def c3_result : XmlGroup :=
  { html_url := "https://host/index", name := "G", xml_info_list := [c3_info, c3_info] }

/-- A one-record known list with a name distinct from `A`. -/
def c3_old : List XmlInfo := [{ name := "B", xml_filepath := "out/G/0", xml_url := "u" }]

/-- A two-cell row whose second cell has no hyperlink. -/
def c8_row_nolink : Row := [{ text := "A", a_href := none }, { text := "x", a_href := none }]

/-- A network oracle that always succeeds with empty content. -/
def exNet : String → NetResult := fun _ => .ok []

/-- An empty filesystem. -/
def exFs : String → Option (List Nat) := fun _ => none

/-- A stored episode with id 123. -/
def c5_audio : Audio :=
  { id := 123, pub_date := "2024-01-01", title := none, duration := none,
    audio_filepath := "o/s/n/123.mp3", url := "http://a/123.mp3" }

/-- A feed entry whose identifier ends in the already-known id 123. -/
def c5_entry : Entry :=
  { enclosures := [{ url := some "http://a/123.mp3" }], id := some "https://x/123",
    published_parsed := some "2024-01-02", title := some "t", itunes_duration := some "1:00",
    itunes_season := none, itunes_episode := none }

/-- A parser oracle returning exactly `c5_entry`. -/
def c5_parse : String → Option (List Entry) := fun _ => some [c5_entry]

/-- A parser oracle returning a feed with no entries. -/
def c7_parse : String → Option (List Entry) := fun _ => some []

/-- A complete feed descriptor with one stored episode. -/
def c7_feed : Feed :=
  { source := some "s", name := some "n", rss_url := some "r", audio_list := some [c5_audio] }

/-- The persisted feed after a run that found nothing new. -/
def c7_feed_result : Feed :=
  { source := some "s", name := some "n", rss_url := some "r", audio_list := some [c5_audio] }

/-- A filesystem holding one pre-existing media file. -/
def c6_fs : String → Option (List Nat) := fun p => if p = "pre.mp3" then some [9, 9] else none

/-- A feed descriptor with its source missing. -/
def c9_feed_bad : Feed :=
  { source := none, name := some "n", rss_url := some "r", audio_list := none }

/-- A fresh feed entry with numeric id 7. -/
def c10_entry : Entry :=
  { enclosures := [{ url := some "http://a/7.mp3" }], id := some "x/7",
    published_parsed := some "2024-01-03", title := none, itunes_duration := none,
    itunes_season := none, itunes_episode := none }

/-- A filesystem holding one unrelated pre-existing file. -/
def c10_fs : String → Option (List Nat) := fun p => if p = "pre.mp3" then some [1] else none

/-- The filesystem after downloading `c10_entry` under base directory `o`. -/
def c10_fsEnd : String → Option (List Nat) :=
  fun p => if p = "o/7.mp3" then some [] else c10_fs p

/-- The record built for `c10_entry`. -/
def c10_rec : Audio :=
  { id := 7, pub_date := "2024-01-03", title := none, duration := none,
    audio_filepath := "o/7.mp3", url := "http://a/7.mp3" }

/-! ## Helper lemmas -/

/-- Every pair kept by `parseQsPair` has a nonempty value. -/
theorem parseQsPair_snd_ne (f : String) (p : String × String)
    (h : parseQsPair f = some p) : p.2 ≠ "" := by
  unfold parseQsPair at h
  split at h
  · simp at h
  · split at h
    · simp at h
    · simp at h
    · dsimp only at h
      split at h
      · simp at h
      · rename_i hv
        obtain rfl : _ = p := Option.some.inj h
        exact hv

/-- Every value `parse_qs` records is nonempty. -/
theorem getParam_parseQs_ne_empty (q k v : String)
    (h : getParam (parseQs q) k = some v) : v ≠ "" := by
  unfold getParam at h
  cases hf : (parseQs q).find? (fun p => p.1 == k) with
  | none => rw [hf] at h; simp at h
  | some pr =>
    rw [hf] at h
    simp only [Option.map_some'] at h
    have hmem := List.mem_of_find?_eq_some hf
    unfold parseQs at hmem
    rw [List.mem_filterMap] at hmem
    obtain ⟨f, _, hfp⟩ := hmem
    obtain rfl : pr.2 = v := Option.some.inj h
    exact parseQsPair_snd_ne f pr hfp

/-- On the output of `parse_qs`, Python truthiness of a looked-up value
coincides with its presence. -/
theorem pyTruthy_getParam (q k : String) :
    pyTruthy (getParam (parseQs q) k) = (getParam (parseQs q) k).isSome := by
  cases hg : getParam (parseQs q) k with
  | none => simp [pyTruthy]
  | some v =>
    have := getParam_parseQs_ne_empty q k v hg
    simp [pyTruthy, this]

/-- A successful `download_xml` got its name from the first cell of a
well-formed row, and that name was not yet known. -/
theorem download_xml_ok_inv (fetch : String → FetchResult) (row : Row)
    (b d : String) (known : List XmlInfo) (reqs : List String) (info : XmlInfo)
    (h : download_xml fetch row b d known = (reqs, .ok info)) :
    rowName? row = some info.name ∧
    known.any (fun xi => xi.name == info.name) = false := by
  match row with
  | [] => simp [download_xml] at h
  | [c] => simp [download_xml] at h
  | c0 :: c1 :: cs =>
    rw [download_xml] at h
    dsimp only at h
    split at h
    · simp [Prod.ext_iff] at h
    · rename_i hany
      split at h
      · simp [Prod.ext_iff] at h
      · rename_i href0 heq
        split at h
        · simp [Prod.ext_iff] at h
        · simp only [Prod.mk.injEq, Except.ok.injEq] at h
          obtain ⟨-, hinfo⟩ := h
          subst hinfo
          refine ⟨rfl, ?_⟩
          simpa using hany

/-- A row rejected with a `ValueError` was rejected before any fetch. -/
theorem download_xml_vE_reqs (fetch : String → FetchResult) (row : Row)
    (b d : String) (known : List XmlInfo) (reqs : List String) (m : String)
    (h : download_xml fetch row b d known = (reqs, .error (.valueError m))) :
    reqs = [] := by
  match row with
  | [] => simp [download_xml, Prod.ext_iff] at h; exact h.1
  | [c] => simp [download_xml, Prod.ext_iff] at h; exact h.1
  | c0 :: c1 :: cs =>
    rw [download_xml] at h
    dsimp only at h
    split at h
    · simp only [Prod.mk.injEq] at h; exact h.1.symm
    · split at h
      · simp only [Prod.mk.injEq] at h; exact h.1.symm
      · split at h
        · simp [Prod.ext_iff] at h
        · simp [Prod.ext_iff] at h

/-- The names of the records a successful batch builds form a sublist of the
page's well-formed row names, and none of them was already known. -/
theorem processRows_ok_inv (fetch : String → FetchResult) (b d : String)
    (known : List XmlInfo) :
    ∀ (rows : List Row) (newList : List XmlInfo),
      (processRows fetch b d known rows).2 = Except.ok newList →
      (newList.map (fun xi => xi.name)).Sublist (pageRowNames rows) ∧
      ∀ xi ∈ newList, ¬ xi.name ∈ known.map (fun x => x.name)
  | [], newList, h => by
    simp only [processRows, Except.ok.injEq] at h
    subst h
    simp [pageRowNames]
  | row :: rest, newList, h => by
    rw [processRows] at h
    rcases hd : download_xml fetch row b d known with ⟨reqs, res⟩
    rw [hd] at h
    cases res with
    | ok info =>
      dsimp only at h
      cases hrest : (processRows fetch b d known rest).2 with
      | error e => rw [hrest] at h; simp [Except.map] at h
      | ok l' =>
        rw [hrest] at h
        simp only [Except.map, Except.ok.injEq] at h
        subst h
        obtain ⟨hsub, hnames⟩ := processRows_ok_inv fetch b d known rest l' hrest
        obtain ⟨hrow, hany⟩ := download_xml_ok_inv fetch row b d known reqs info hd
        constructor
        · unfold pageRowNames
          rw [List.filterMap_cons, hrow]
          simpa using hsub.cons₂ info.name
        · intro xi hxi
          rcases List.mem_cons.mp hxi with rfl | hxi'
          · intro hmem
            rw [List.mem_map] at hmem
            obtain ⟨x, hx, hxname⟩ := hmem
            rw [List.any_eq_false] at hany
            exact hany x hx (by simp [hxname])
          · exact hnames xi hxi'
    | error e =>
      cases e with
      | valueError m =>
        dsimp only at h
        obtain ⟨hsub, hnames⟩ := processRows_ok_inv fetch b d known rest newList h
        refine ⟨?_, hnames⟩
        unfold pageRowNames
        rw [List.filterMap_cons]
        cases rowName? row with
        | none => exact hsub
        | some s => exact hsub.cons s
      | httpError => simp at h

/-- Inversion of a completed run of the XML downloader: each persisted group
is its run-computed new list prepended to its old list. -/
theorem parliamentMain_ok_inv (page : String → Option (List Row))
    (fetch : String → FetchResult) (dir : String) :
    ∀ (groups groups' : List XmlGroup),
      parliamentMain page fetch dir groups = some groups' →
      List.Forall₂ (fun g g' => ∃ new, groupNewList page fetch dir g = some new ∧
        g' = { g with xml_info_list := new ++ g.xml_info_list }) groups groups'
  | [], gs', h => by
    simp only [parliamentMain, Option.some.injEq] at h
    subst h
    exact List.Forall₂.nil
  | g :: gs, gs', h => by
    rw [parliamentMain] at h
    cases hp : page g.html_url with
    | none => rw [hp] at h; simp at h
    | some rows =>
      rw [hp] at h
      dsimp only at h
      cases hr : (processRows fetch (base_url_of g.html_url)
          (dir ++ "/" ++ g.name) g.xml_info_list rows).2 with
      | error e => rw [hr] at h; simp at h
      | ok newList =>
        rw [hr] at h
        dsimp only at h
        cases hrec : parliamentMain page fetch dir gs with
        | none => rw [hrec] at h; simp at h
        | some gs'' =>
          rw [hrec] at h
          simp only [Option.some.injEq] at h
          subst h
          refine List.Forall₂.cons ⟨newList, ?_, rfl⟩
            (parliamentMain_ok_inv page fetch dir gs gs'' hrec)
          simp [groupNewList, hp, hr]

/-- `download_file` on an existing target path: no request, no change,
Python `None` returned. -/
theorem download_file_exists (net : String → NetResult) (fs : String → Option (List Nat))
    (url output_path : String) (b : List Nat) (hb : fs output_path = some b) :
    download_file net fs url output_path = (fs, [], none) := by
  unfold download_file
  rw [hb]

/-- `download_file` never changes or removes an existing file. -/
theorem download_file_preserves (net : String → NetResult) (fs : String → Option (List Nat))
    (url output_path : String) (p : String) (c : List Nat) (hp : fs p = some c) :
    (download_file net fs url output_path).1 p = some c := by
  unfold download_file
  cases hex : fs output_path with
  | some _ => exact hp
  | none =>
    cases net url with
    | errBefore => exact hp
    | errDuring w =>
      dsimp only
      by_cases hpp : p = output_path
      · subst hpp; rw [hp] at hex; exact absurd hex (by simp)
      · simp [hpp, hp]
    | ok content =>
      dsimp only
      by_cases hpp : p = output_path
      · subst hpp; rw [hp] at hex; exact absurd hex (by simp)
      · simp [hpp, hp]

/-- `download_file` returns `True` only when the target path was absent. -/
theorem download_file_ret_true (net : String → NetResult) (fs : String → Option (List Nat))
    (url output_path : String)
    (h : (download_file net fs url output_path).2.2 = some true) :
    fs output_path = none := by
  unfold download_file at h
  cases hex : fs output_path with
  | some _ => rw [hex] at h; simp at h
  | none => rfl

/-- One entry-loop iteration never changes or removes an existing file. -/
theorem processEntry_preserves (net : String → NetResult) (bd : String)
    (il : Option (List Nat)) (fs : String → Option (List Nat)) (e : Entry)
    (p : String) (c : List Nat) (hp : fs p = some c) :
    (processEntry net bd il fs e).1 p = some c := by
  obtain ⟨encs, eid, pp, ti, du, se, ep⟩ := e
  cases encs with
  | nil => exact hp
  | cons enc rest =>
    obtain ⟨u⟩ := enc
    cases u with
    | none => exact hp
    | some url =>
      by_cases hu : url = ""
      · simp [processEntry, hu]; exact hp
      · cases eid with
        | none => simp [processEntry, hu]; exact hp
        | some fid =>
          cases hpi : pyInt? (os_path_split_tail fid) with
          | none => simp [processEntry, hu, hpi]; exact hp
          | some num =>
            cases hdup : (match il with
                | some l => decide (num ∈ l)
                | none => false) with
            | true => simp [processEntry, hu, hpi, hdup]; exact hp
            | false =>
              simp only [processEntry, hu, hpi, hdup, if_neg, if_false]
              have hdf := download_file_preserves net fs url
                (bd ++ "/" ++ episode_filename se ep num ++ ".mp3") p c hp
              rw [if_neg (by simp)]
              split
              · split
                · exact hdf
                · exact hdf
              · exact hdf

/-- A record is only built for a target path that was absent when the entry
was processed. -/
theorem processEntry_added_inv (net : String → NetResult) (bd : String)
    (il : Option (List Nat)) (fs : String → Option (List Nat)) (e : Entry)
    (fs1 : String → Option (List Nat)) (reqs1 : List String) (a : Audio)
    (h : processEntry net bd il fs e = (fs1, reqs1, .added a)) :
    fs a.audio_filepath = none := by
  obtain ⟨encs, eid, pp, ti, du, se, ep⟩ := e
  cases encs with
  | nil => simp [processEntry, Prod.ext_iff] at h
  | cons enc rest =>
    obtain ⟨u⟩ := enc
    cases u with
    | none => simp [processEntry, Prod.ext_iff] at h
    | some url =>
      by_cases hu : url = ""
      · simp [processEntry, hu, Prod.ext_iff] at h
      · cases eid with
        | none => simp [processEntry, hu, Prod.ext_iff] at h
        | some fid =>
          cases hpi : pyInt? (os_path_split_tail fid) with
          | none => simp [processEntry, hu, hpi, Prod.ext_iff] at h
          | some num =>
            cases hdup : (match il with
                | some l => decide (num ∈ l)
                | none => false) with
            | true => simp [processEntry, hu, hpi, hdup, Prod.ext_iff] at h
            | false =>
              simp only [processEntry, hu, hpi, hdup, if_neg, if_false] at h
              rw [if_neg (by simp)] at h
              split at h
              · rename_i hret
                split at h
                · simp [Prod.ext_iff] at h
                · simp only [Prod.mk.injEq, StepOut.added.injEq] at h
                  obtain ⟨-, -, ha⟩ := h
                  subst ha
                  exact download_file_ret_true net fs url _ hret
              · simp [Prod.ext_iff] at h

/-- The entry loop never changes or removes an existing file. -/
theorem processEntries_preserves (net : String → NetResult) (bd : String)
    (il : Option (List Nat)) :
    ∀ (entries : List Entry) (fs : String → Option (List Nat)) (p : String) (c : List Nat),
      fs p = some c → (processEntries net bd il fs entries).1 p = some c
  | [], _, _, _, hp => hp
  | e :: rest, fs, p, c, hp => by
    rw [processEntries]
    rcases hstep : processEntry net bd il fs e with ⟨fs1, reqs1, out⟩
    have h1 : fs1 p = some c := by
      have h2 := processEntry_preserves net bd il fs e p c hp
      rw [hstep] at h2
      exact h2
    cases out with
    | crash m => exact h1
    | skip => exact processEntries_preserves net bd il rest fs1 p c h1
    | notAdded => exact processEntries_preserves net bd il rest fs1 p c h1
    | added a => exact processEntries_preserves net bd il rest fs1 p c h1

/-- Every record the entry loop builds names a target path that was absent
in the filesystem the loop started from. -/
theorem processEntries_new_fresh (net : String → NetResult) (bd : String)
    (il : Option (List Nat)) :
    ∀ (entries : List Entry) (fs : String → Option (List Nat)) (newList : List Audio),
      (processEntries net bd il fs entries).2.2 = Except.ok newList →
      ∀ rec ∈ newList, fs rec.audio_filepath = none
  | [], fs, newList, h => by
    simp only [processEntries, Except.ok.injEq] at h
    subst h
    intro rec hrec
    simp at hrec
  | e :: rest, fs, newList, h => by
    rw [processEntries] at h
    rcases hstep : processEntry net bd il fs e with ⟨fs1, reqs1, out⟩
    rw [hstep] at h
    cases out with
    | crash m => simp at h
    | skip =>
      dsimp only at h
      intro rec hrec
      have h1 := processEntries_new_fresh net bd il rest fs1 newList h rec hrec
      cases hfs : fs rec.audio_filepath with
      | none => rfl
      | some c =>
        have h2 := processEntry_preserves net bd il fs e _ c hfs
        rw [hstep] at h2
        simp only [h1] at h2
        cases h2
    | notAdded =>
      dsimp only at h
      intro rec hrec
      have h1 := processEntries_new_fresh net bd il rest fs1 newList h rec hrec
      cases hfs : fs rec.audio_filepath with
      | none => rfl
      | some c =>
        have h2 := processEntry_preserves net bd il fs e _ c hfs
        rw [hstep] at h2
        simp only [h1] at h2
        cases h2
    | added a =>
      dsimp only at h
      cases hrest : (processEntries net bd il fs1 rest).2.2 with
      | error err => rw [hrest] at h; simp [Except.map] at h
      | ok l' =>
        rw [hrest] at h
        simp only [Except.map, Except.ok.injEq] at h
        subst h
        intro rec hrec
        rcases List.mem_cons.mp hrec with rfl | hrec'
        · exact processEntry_added_inv net bd il fs e fs1 reqs1 rec hstep
        · have h1 := processEntries_new_fresh net bd il rest fs1 l' hrest rec hrec'
          cases hfs : fs rec.audio_filepath with
          | none => rfl
          | some c =>
            have h2 := processEntry_preserves net bd il fs e _ c hfs
            rw [hstep] at h2
            simp only [h1] at h2
            cases h2

/-- When every entry's id is already known, the entry loop does nothing. -/
theorem processEntries_all_known (net : String → NetResult) (bd : String)
    (ids : List Nat) :
    ∀ (entries : List Entry) (fs : String → Option (List Nat)),
      (∀ e ∈ entries, ∃ s, e.id = some s ∧
        ∃ n, pyInt? (os_path_split_tail s) = some n ∧ n ∈ ids) →
      processEntries net bd (some ids) fs entries = (fs, [], Except.ok [])
  | [], fs, _ => rfl
  | e :: rest, fs, h => by
    have hrest := processEntries_all_known net bd ids rest fs
      (fun e' he' => h e' (List.mem_cons_of_mem _ he'))
    obtain ⟨s, hs, n, hn, hmem⟩ := h e (List.mem_cons_self _ _)
    have hstep : processEntry net bd (some ids) fs e = (fs, [], .skip) := by
      obtain ⟨encs, eid, pp, ti, du, se, ep⟩ := e
      simp only [Entry.id] at hs
      subst hs
      cases encs with
      | nil => rfl
      | cons enc tail =>
        obtain ⟨u⟩ := enc
        cases u with
        | none => rfl
        | some url =>
          by_cases hu : url = ""
          · simp [processEntry, hu]
          · simp [processEntry, hu, hn, hmem]
    rw [processEntries, hstep]
    dsimp only
    rw [hrest]
    rfl

/-- A whole feed run never changes or removes an existing file. -/
theorem process_feed_preserves (net : String → NetResult)
    (parseRss : String → Option (List Entry)) (fs : String → Option (List Nat))
    (feed_info : Feed) (output_dir : String) (p : String) (c : List Nat)
    (hp : fs p = some c) :
    (process_feed net parseRss fs feed_info output_dir).1 p = some c := by
  obtain ⟨src, nm, rss, al⟩ := feed_info
  unfold process_feed
  cases src with
  | none => cases nm <;> cases rss <;> exact hp
  | some s =>
    cases nm with
    | none => cases rss <;> exact hp
    | some n =>
      cases rss with
      | none => exact hp
      | some r =>
        dsimp only
        cases parseRss r with
        | none => exact hp
        | some entries => exact processEntries_preserves net _ _ entries fs p c hp

/-- A feed descriptor missing a required field fails immediately, before any
request. -/
theorem process_feed_missing (net : String → NetResult)
    (parseRss : String → Option (List Entry)) (fs : String → Option (List Nat))
    (feed_info : Feed) (output_dir : String) (hbad : feedMissingRequired feed_info) :
    process_feed net parseRss fs feed_info output_dir =
      (fs, [], Except.error "ERROR: Missing required field in feed_info") := by
  obtain ⟨src, nm, rss, al⟩ := feed_info
  rcases hbad with hb | hb | hb <;>
    simp only [Feed.source, Feed.name, Feed.rss_url] at hb <;> subst hb
  · rfl
  · cases src <;> rfl
  · cases src <;> cases nm <;> rfl

/-- Inversion of a completed run of the podcast downloader: each persisted
feed is a run-computed new list prepended to its old list. -/
theorem podcastMain_ok_inv (net : String → NetResult)
    (parseRss : String → Option (List Entry)) (dir : String) :
    ∀ (feeds : List Feed) (fs : String → Option (List Nat))
      (fsEnd : String → Option (List Nat)) (feeds' : List Feed),
      podcastMain net parseRss dir fs feeds = some (fsEnd, feeds') →
      List.Forall₂ (fun f f' => ∃ fsi new,
        (process_feed net parseRss fsi f dir).2.2 = Except.ok new ∧
        f' = { f with audio_list := some (new ++ f.audio_list.getD []) }) feeds feeds'
  | [], fs, fsEnd, feeds', h => by
    simp only [podcastMain, Option.some.injEq, Prod.mk.injEq] at h
    rw [← h.2]
    exact List.Forall₂.nil
  | f :: rest, fs, fsEnd, feeds', h => by
    rw [podcastMain] at h
    rcases hp : process_feed net parseRss fs f dir with ⟨fs1, reqs1, res⟩
    rw [hp] at h
    cases res with
    | error err => simp at h
    | ok newList =>
      dsimp only at h
      cases hrec : podcastMain net parseRss dir fs1 rest with
      | none => rw [hrec] at h; simp at h
      | some out =>
        obtain ⟨fs2, feeds2⟩ := out
        rw [hrec] at h
        simp only [Option.some.injEq, Prod.mk.injEq] at h
        obtain ⟨-, hfeeds⟩ := h
        subst hfeeds
        refine List.Forall₂.cons ⟨fs, newList, ?_, rfl⟩
          (podcastMain_ok_inv net parseRss dir rest fs1 fs2 feeds2 hrec)
        rw [hp]

/-- A run over a feed list containing a descriptor with a missing required
field never reaches the store write. -/
theorem podcastMain_bad_feed (net : String → NetResult)
    (parseRss : String → Option (List Entry)) (dir : String) :
    ∀ (feeds : List Feed) (fs : String → Option (List Nat)) (f : Feed),
      f ∈ feeds → feedMissingRequired f →
      podcastMain net parseRss dir fs feeds = none
  | [], fs, f, hmem, _ => absurd hmem (List.not_mem_nil f)
  | g :: rest, fs, f, hmem, hbad => by
    rw [podcastMain]
    rcases hp : process_feed net parseRss fs g dir with ⟨fs1, reqs1, res⟩
    cases res with
    | error err => rfl
    | ok newList =>
      rcases List.mem_cons.mp hmem with rfl | hmem'
      · rw [process_feed_missing net parseRss fs f dir hbad] at hp
        simp at hp
      · dsimp only
        rw [podcastMain_bad_feed net parseRss dir rest fs1 f hmem' hbad]

/-! ## Claims -/

/-- C1, counterexample: the element text `c1_url` contains the hostname
marker and `videos`, its query string contains an end timestamp and none of
the other recognized parameters, yet `_parse_video_url` discards it — the
claim's "accepted if and only if a timestamp parameter is present" fails. -/
theorem C1_end_timestamp_only_rejected :
    strContains c1_url "legebiltzarra.eus" = true ∧
    strContains c1_url "videos" = true ∧
    getParam (parseQs (extractQuery c1_url)) "streamdbend" = some "100" ∧
    getParam (parseQs (extractQuery c1_url)) "streamdbstart" = none ∧
    getParam (parseQs (extractQuery c1_url)) "streamlegealdia" = none ∧
    getParam (parseQs (extractQuery c1_url)) "streamorganoa" = none ∧
    getParam (parseQs (extractQuery c1_url)) "streamdata" = none ∧
    getParam (parseQs (extractQuery c1_url)) "streamname" = none ∧
    parse_video_url c1_url = none := by
  decide

/-- C1, amended: a candidate URL is accepted as a video segment if and only
if it contains the substring `streamlegealdia` or `streamdbstart` and its
query string contains a start-timestamp or end-timestamp parameter; in
particular a candidate whose query carries only an end timestamp is
discarded by the substring precheck. -/
theorem C1_accepted_iff_gate_and_timestamp (url : String) :
    (parse_video_url url).isSome = true ↔
      ((strContains url "streamlegealdia" = true ∨ strContains url "streamdbstart" = true) ∧
       ((getParam (parseQs (extractQuery url)) "streamdbstart").isSome = true ∨
        (getParam (parseQs (extractQuery url)) "streamdbend").isSome = true)) := by
  unfold parse_video_url
  cases h1 : strContains url "streamlegealdia" <;>
    cases h2 : strContains url "streamdbstart" <;>
      simp [h1, h2, pyTruthy_getParam, apply_ite Option.isSome]

/-- C2: `_get_description` returns `None` for every element, because
`ElementTree`'s `find("..")` cannot reach an ancestor of its start element —
in particular it returns `None` for `c2_video_elem` even though its direct
parent `c2_parent` holds the description node with text `Punto 1`, which the
specified ancestor walk (`description_spec`) finds. -/
theorem C2_description_never_found :
    (∀ e : XmlElem, get_description e = none) ∧
    c2_parent.children = [c2_desc_elem, c2_video_elem] ∧
    get_description c2_video_elem = none ∧
    description_spec [c2_parent] = some "Punto 1" := by
  refine ⟨fun _ => rfl, rfl, rfl, ?_⟩
  simp [description_spec, description_spec_go, c2_parent, c2_desc_elem, c2_video_elem,
    findDescList, XmlElem.children, XmlElem.text]
  decide

/-- C3, counterexample: over a page carrying two rows with the same new name
`A`, a run on a group with a duplicate-free (empty) record list persists a
record list with two records named `A` — the no-duplicate-name invariant is
not preserved when two rows on the same page carry the same new name. -/
theorem C3_duplicate_rows_break_invariant :
    (c3_group.xml_info_list.map (fun xi => xi.name)).Nodup ∧
    parliamentMain c3_page exFetch "out" [c3_group] = some [c3_result] ∧
    ¬ (c3_result.xml_info_list.map (fun xi => xi.name)).Nodup :=
  ⟨by decide, by decide, by decide⟩

/-- C3, amended: when additionally the names carried by the page's
well-formed rows are pairwise distinct, a successful batch preserves the
no-duplicate-name invariant of the persisted list (new records prepended to
the old ones). -/
theorem C3_nodup_preserved_when_page_names_distinct
    (fetch : String → FetchResult) (b d : String)
    (old : List XmlInfo) (rows : List Row) (newList : List XmlInfo)
    (hold : (old.map (fun xi => xi.name)).Nodup)
    (hrows : (pageRowNames rows).Nodup)
    (hrun : (processRows fetch b d old rows).2 = Except.ok newList) :
    ((newList ++ old).map (fun xi => xi.name)).Nodup := by
  obtain ⟨hsub, hfresh⟩ := processRows_ok_inv fetch b d old rows newList hrun
  rw [List.map_append, List.nodup_append]
  refine ⟨hsub.nodup hrows, hold, ?_⟩
  intro a ha
  rw [List.mem_map] at ha
  obtain ⟨xi, hxi, rfl⟩ := ha
  exact hfresh xi hxi

/-- C3, witness for the amended theorem at a concrete run. -/
theorem C3_nodup_preserved_witness :
    ((c3_old.map (fun xi => xi.name)).Nodup ∧ (pageRowNames [c3_row]).Nodup ∧
      (processRows exFetch "https://host" "out/G" c3_old [c3_row]).2 =
        Except.ok [c3_info]) ∧
    (([c3_info] ++ c3_old).map (fun xi => xi.name)).Nodup :=
  ⟨⟨by decide, by decide, by rfl⟩,
    C3_nodup_preserved_when_page_names_distinct exFetch "https://host" "out/G"
      c3_old [c3_row] [c3_info] (by decide) (by decide) (by rfl)⟩

/-- C4: when the first-cell name of every well-formed row on the page is
already known, the batch produces zero new records and issues zero download
requests. -/
theorem C4_rerun_zero_new_zero_requests
    (fetch : String → FetchResult) (b d : String)
    (known : List XmlInfo) (rows : List Row)
    (h : ∀ row ∈ rows, ∀ s, rowName? row = some s →
      s ∈ known.map (fun xi => xi.name)) :
    processRows fetch b d known rows = ([], Except.ok []) := by
  induction rows with
  | nil => rfl
  | cons row rest ih =>
    have hrest := ih (fun r hr => h r (List.mem_cons_of_mem _ hr))
    rcases row with _ | ⟨c0, _ | ⟨c1, cs⟩⟩
    · rw [processRows]
      simp [download_xml, hrest]
    · rw [processRows]
      simp [download_xml, hrest]
    · have hmem := h _ (List.mem_cons_self _ _) c0.text rfl
      have hany : known.any (fun xi => xi.name == c0.text) = true := by
        rw [List.any_eq_true]
        rw [List.mem_map] at hmem
        obtain ⟨xi, hxi, hname⟩ := hmem
        exact ⟨xi, hxi, by simp [hname]⟩
      rw [processRows]
      simp [download_xml, hany, hrest]

/-- C4, witness: a page whose single row carries the already-known name. -/
theorem C4_rerun_witness :
    (∀ row ∈ [c3_row], ∀ s, rowName? row = some s →
      s ∈ [c3_info].map (fun xi => xi.name)) ∧
    processRows exFetch "https://host" "out/G" [c3_info] [c3_row] =
      ([], Except.ok []) := by
  have h : ∀ row ∈ [c3_row], ∀ s, rowName? row = some s →
      s ∈ [c3_info].map (fun xi => xi.name) := by
    intro row hrow s hs
    rw [List.mem_singleton] at hrow
    subst hrow
    simp only [c3_row, rowName?, Option.some.injEq] at hs
    subst hs
    decide
  exact ⟨h, C4_rerun_zero_new_zero_requests exFetch "https://host" "out/G" [c3_info] [c3_row] h⟩

/-- C5: when every feed entry's numeric id (parsed from the trailing path
segment of its identifier) is already in the feed's known id list, the run
produces zero new records, issues zero download requests and leaves the
filesystem unchanged — the dedup check runs before any payload fetch. -/
theorem C5_rerun_zero_new_zero_requests (net : String → NetResult)
    (parseRss : String → Option (List Entry)) (fs : String → Option (List Nat))
    (output_dir src nm rss : String) (entries : List Entry) (l : List Audio)
    (hne : l ≠ [])
    (hparse : parseRss rss = some entries)
    (hids : ∀ e ∈ entries, ∃ s, e.id = some s ∧
      ∃ n, pyInt? (os_path_split_tail s) = some n ∧ n ∈ l.map (fun a => a.id)) :
    process_feed net parseRss fs
      { source := some src, name := some nm, rss_url := some rss, audio_list := some l }
      output_dir = (fs, [], Except.ok []) := by
  unfold process_feed
  dsimp only
  rw [hparse]
  have hle : l.isEmpty = false := by
    cases l with
    | nil => exact absurd rfl hne
    | cons a as => rfl
  rw [hle]
  dsimp only
  exact processEntries_all_known net _ _ entries fs hids

/-- C5, witness: a feed whose single entry carries the known id 123. -/
theorem C5_rerun_witness :
    ([c5_audio] ≠ [] ∧ c5_parse "r" = some [c5_entry] ∧
      (∀ e ∈ [c5_entry], ∃ s, e.id = some s ∧
        ∃ n, pyInt? (os_path_split_tail s) = some n ∧
          n ∈ [c5_audio].map (fun a => a.id))) ∧
    process_feed exNet c5_parse exFs
      { source := some "s", name := some "n", rss_url := some "r",
        audio_list := some [c5_audio] } "o" = (exFs, [], Except.ok []) := by
  have hids : ∀ e ∈ [c5_entry], ∃ s, e.id = some s ∧
      ∃ n, pyInt? (os_path_split_tail s) = some n ∧
        n ∈ [c5_audio].map (fun a => a.id) := by
    intro e he
    rw [List.mem_singleton] at he
    subst he
    exact ⟨"https://x/123", rfl, 123, by decide, by decide⟩
  exact ⟨⟨by decide, rfl, hids⟩,
    C5_rerun_zero_new_zero_requests exNet c5_parse exFs "o" "s" "n" "r"
      [c5_entry] [c5_audio] (by decide) rfl hids⟩

/-- C6: a target media file that already exists is neither requested nor
touched — `download_file` returns Python `None` with no request and the
unchanged filesystem, and a whole feed run preserves every existing file
byte for byte. -/
theorem C6_existing_file_untouched (net : String → NetResult)
    (parseRss : String → Option (List Entry)) (fs : String → Option (List Nat))
    (url output_path : String) (b : List Nat) (feed_info : Feed) (output_dir : String)
    (hb : fs output_path = some b) :
    download_file net fs url output_path = (fs, [], none) ∧
    ∀ p c, fs p = some c →
      (process_feed net parseRss fs feed_info output_dir).1 p = some c :=
  ⟨download_file_exists net fs url output_path b hb,
    fun p c hp => process_feed_preserves net parseRss fs feed_info output_dir p c hp⟩

/-- C6, witness at a filesystem holding `pre.mp3`. -/
theorem C6_existing_file_witness :
    c6_fs "pre.mp3" = some [9, 9] ∧
    (download_file exNet c6_fs "http://u" "pre.mp3" = (c6_fs, [], none) ∧
      ∀ p c, c6_fs p = some c →
        (process_feed exNet c7_parse c6_fs c7_feed "o").1 p = some c) :=
  ⟨by decide,
    C6_existing_file_untouched exNet c7_parse c6_fs "http://u" "pre.mp3" [9, 9]
      c7_feed "o" (by decide)⟩

/-- C7: after a completed run each persisted group (XML downloader) and each
persisted feed (podcast downloader) holds exactly the records newly created
in this run prepended to its pre-existing list, the old list and the other
fields unchanged. -/
theorem C7_persisted_lists_prepend (page : String → Option (List Row))
    (fetch : String → FetchResult) (dir : String)
    (groups groups' : List XmlGroup) (net : String → NetResult)
    (parseRss : String → Option (List Entry)) (outdir : String)
    (fs fsEnd : String → Option (List Nat)) (feeds feeds' : List Feed) :
    (parliamentMain page fetch dir groups = some groups' →
      List.Forall₂ (fun g g' => ∃ new, groupNewList page fetch dir g = some new ∧
        g' = { g with xml_info_list := new ++ g.xml_info_list }) groups groups') ∧
    (podcastMain net parseRss outdir fs feeds = some (fsEnd, feeds') →
      List.Forall₂ (fun f f' => ∃ fsi new,
        (process_feed net parseRss fsi f outdir).2.2 = Except.ok new ∧
        f' = { f with audio_list := some (new ++ f.audio_list.getD []) }) feeds feeds') :=
  ⟨parliamentMain_ok_inv page fetch dir groups groups',
    podcastMain_ok_inv net parseRss outdir feeds fs fsEnd feeds'⟩

/-- C7, witness: one concrete completed run of each downloader. -/
theorem C7_persisted_lists_witness :
    List.Forall₂ (fun g g' => ∃ new, groupNewList c3_page exFetch "out" g = some new ∧
        g' = { g with xml_info_list := new ++ g.xml_info_list })
      [c3_group] [c3_result] ∧
    List.Forall₂ (fun f f' => ∃ fsi new,
        (process_feed exNet c7_parse fsi f "o").2.2 = Except.ok new ∧
        f' = { f with audio_list := some (new ++ f.audio_list.getD []) })
      [c7_feed] [c7_feed_result] :=
  ⟨(C7_persisted_lists_prepend c3_page exFetch "out" [c3_group] [c3_result]
      exNet c7_parse "o" exFs exFs [c7_feed] [c7_feed_result]).1 (by decide),
   (C7_persisted_lists_prepend c3_page exFetch "out" [c3_group] [c3_result]
      exNet c7_parse "o" exFs exFs [c7_feed] [c7_feed_result]).2 (by rfl)⟩

/-- C8: each per-row rejection of the XML downloader — fewer than two cells,
duplicate name, missing hyperlink — yields a `ValueError` before any fetch
and the batch continues with the remaining rows, whereas a non-success
transport response ends the batch at that row with an uncaught error. -/
theorem C8_row_errors_skipped_transport_aborts
    (fetch : String → FetchResult) (b d : String) (known : List XmlInfo)
    (row : Row) (rest : List Row) :
    (row.length < 2 →
      download_xml fetch row b d known =
        ([], .error (.valueError "Skipping Malformed rows"))) ∧
    (∀ (c0 c1 : Cell) (cs : List Cell), row = c0 :: c1 :: cs →
      known.any (fun xi => xi.name == c0.text) = true →
      download_xml fetch row b d known =
        ([], .error (.valueError ("File already downloaded name: " ++ c0.text)))) ∧
    (∀ (c0 c1 : Cell) (cs : List Cell), row = c0 :: c1 :: cs →
      known.any (fun xi => xi.name == c0.text) = false →
      c1.a_href = none →
      download_xml fetch row b d known = ([], .error (.valueError "a_tag not found"))) ∧
    (∀ (reqs : List String) (m : String),
      download_xml fetch row b d known = (reqs, .error (.valueError m)) →
      processRows fetch b d known (row :: rest) = processRows fetch b d known rest) ∧
    (∀ reqs : List String,
      download_xml fetch row b d known = (reqs, .error .httpError) →
      processRows fetch b d known (row :: rest) = (reqs, .error ())) := by
  refine ⟨?_, ?_, ?_, ?_, ?_⟩
  · intro hlen
    rcases row with _ | ⟨c0, _ | ⟨c1, cs⟩⟩
    · rfl
    · rfl
    · simp at hlen
      omega
  · rintro c0 c1 cs rfl hany
    simp [download_xml, hany]
  · rintro c0 c1 cs rfl hany hhref
    simp [download_xml, hany, hhref]
  · intro reqs m hve
    have hreqs := download_xml_vE_reqs fetch row b d known reqs m hve
    subst hreqs
    rw [processRows, hve]
    simp
  · intro reqs hhe
    rw [processRows, hhe]

/-- C8, witness: each rejection kind at a concrete row, the continuation
after a rejected row, and the abort on a transport failure. -/
theorem C8_row_errors_witness :
    download_xml exFetch [] "b" "d" [] =
      ([], .error (.valueError "Skipping Malformed rows")) ∧
    download_xml exFetch c3_row "b" "d" [c3_info] =
      ([], .error (.valueError ("File already downloaded name: " ++ "A"))) ∧
    download_xml exFetch c8_row_nolink "b" "d" [] =
      ([], .error (.valueError "a_tag not found")) ∧
    processRows exFetch "b" "d" [c3_info] [c3_row] =
      processRows exFetch "b" "d" [c3_info] [] ∧
    processRows exFetchErr "b" "d" [] [c3_row] = (["http://h/x?file=1"], .error ()) :=
  ⟨(C8_row_errors_skipped_transport_aborts exFetch "b" "d" [] [] []).1 (by decide),
   (C8_row_errors_skipped_transport_aborts exFetch "b" "d" [c3_info] c3_row []).2.1
     { text := "A", a_href := none } { text := "link", a_href := some "http://h/x?file=1" }
     [] rfl (by decide),
   (C8_row_errors_skipped_transport_aborts exFetch "b" "d" [] c8_row_nolink []).2.2.1
     { text := "A", a_href := none } { text := "x", a_href := none } [] rfl (by decide) rfl,
   (C8_row_errors_skipped_transport_aborts exFetch "b" "d" [c3_info] c3_row []).2.2.2.1
     [] ("File already downloaded name: " ++ "A") (by rfl),
   (C8_row_errors_skipped_transport_aborts exFetchErr "b" "d" [] c3_row []).2.2.2.2
     ["http://h/x?file=1"] (by rfl)⟩

/-- C9: a feed descriptor missing its source, name or feed URL makes
`process_feed` raise immediately, and a run over any feed list containing
such a descriptor aborts without rewriting the metadata store. -/
theorem C9_missing_field_aborts_run (net : String → NetResult)
    (parseRss : String → Option (List Entry)) (dir : String)
    (fs : String → Option (List Nat)) (feeds : List Feed) (f : Feed)
    (hmem : f ∈ feeds) (hbad : feedMissingRequired f) :
    process_feed net parseRss fs f dir =
      (fs, [], Except.error "ERROR: Missing required field in feed_info") ∧
    podcastMain net parseRss dir fs feeds = none :=
  ⟨process_feed_missing net parseRss fs f dir hbad,
    podcastMain_bad_feed net parseRss dir feeds fs f hmem hbad⟩

/-- C9, witness: a feed list holding one descriptor with a missing source. -/
theorem C9_missing_field_witness :
    (c9_feed_bad ∈ [c9_feed_bad] ∧ feedMissingRequired c9_feed_bad) ∧
    (process_feed exNet c7_parse exFs c9_feed_bad "o" =
        (exFs, [], Except.error "ERROR: Missing required field in feed_info") ∧
      podcastMain exNet c7_parse "o" exFs [c9_feed_bad] = none) :=
  ⟨⟨by decide, Or.inl rfl⟩,
    C9_missing_field_aborts_run exNet c7_parse "o" exFs [c9_feed_bad] c9_feed_bad
      (by decide) (Or.inl rfl)⟩

/-- C10: for an entry whose computed target file already exists,
`download_file` returns Python `None` (not `True`), and since a record is
appended only on `True`, no record whose filepath is a pre-existing path is
ever added by the entry loop — the episode stays unrecorded. -/
theorem C10_preexisting_file_never_recorded (net : String → NetResult)
    (fs : String → Option (List Nat)) (url output_path : String) (b : List Nat)
    (bd : String) (il : Option (List Nat)) (entries : List Entry)
    (fsEnd : String → Option (List Nat)) (reqs : List String) (newList : List Audio)
    (hb : fs output_path = some b)
    (hrun : processEntries net bd il fs entries = (fsEnd, reqs, Except.ok newList)) :
    (download_file net fs url output_path).2.2 = none ∧
    ∀ rec ∈ newList, rec.audio_filepath ≠ output_path := by
  constructor
  · rw [download_file_exists net fs url output_path b hb]
  · intro rec hrec hpe
    have hfresh := processEntries_new_fresh net bd il entries fs newList
      (by rw [hrun]) rec hrec
    rw [hpe, hb] at hfresh
    cases hfresh

/-- C10, witness: a run that downloads the fresh entry with id 7 while the
unrelated file `pre.mp3` pre-exists; the new record names a fresh path. -/
theorem C10_preexisting_file_witness :
    c10_fs "pre.mp3" = some [1] ∧
    processEntries exNet "o" none c10_fs [c10_entry] =
      (c10_fsEnd, ["http://a/7.mp3"], Except.ok [c10_rec]) ∧
    ((download_file exNet c10_fs "http://u" "pre.mp3").2.2 = none ∧
      ∀ rec ∈ [c10_rec], rec.audio_filepath ≠ "pre.mp3") :=
  ⟨by decide, by rfl,
    C10_preexisting_file_never_recorded exNet c10_fs "http://u" "pre.mp3" [1] "o"
      none [c10_entry] c10_fsEnd ["http://a/7.mp3"] [c10_rec] (by decide) (by rfl)⟩
